import Mathlib

/-!
Verification development for the httphelpers repository: shallow Lean
embeddings of the requests, responses and fileuploads packages, together
with theorems settling the specified properties. Go strings are modelled as
Lean strings (machine-level byte versus rune distinctions do not arise for
the ASCII inputs involved); Go int and int64 are modelled as Int with the
explicit range checks the standard library parsers perform; fallible Go
calls return Except. External effects (the template engine, the operating
system, JSON and XML codecs) are parameters or explicit state.
-/

deriving instance DecidableEq for Except

namespace HttpHelpers

/-- Model of the Go whitespace test used by strings.Fields, restricted to
the Latin-1 range (HTTP header values are within this range). -/
def isGoSpace (c : Char) : Bool :=
  c = ' ' ∨ c = '\t' ∨ c = '\n' ∨ c.val = 11 ∨ c.val = 12 ∨ c = '\r' ∨ c.val = 133 ∨ c.val = 160

/-- Accumulating worker for goFields: walks the characters, collecting the
current word in reverse. -/
def fieldsAux : List Char → List Char → List (List Char)
  | [], cur => if cur = [] then [] else [cur.reverse]
  | c :: rest, cur =>
    if isGoSpace c then
      (if cur = [] then fieldsAux rest [] else cur.reverse :: fieldsAux rest [])
    else fieldsAux rest (c :: cur)

/-- Model of strings.Fields: splits around runs of whitespace, dropping
empty fields. -/
def goFields (s : String) : List String :=
  (fieldsAux s.data []).map (fun l => ⟨l⟩)

/-- Model of strings.ToLower on the ASCII letters (all inputs compared by
the repository are ASCII). -/
def goToLowerChar (c : Char) : Char :=
  if 'A' ≤ c ∧ c ≤ 'Z' then Char.ofNat (c.toNat + 32) else c

/-- Model of strings.ToLower. -/
def goToLower (s : String) : String := ⟨s.data.map goToLowerChar⟩

/-- Model of strings.HasPrefix: the second argument is the candidate
leading segment of the first. -/
def goStartsWith (s pre : String) : Bool := pre.data.isPrefixOf s.data

/-- Containment of one string in another, used to state that an error
message mentions a fixed phrase. -/
def StrContains (s sub : String) : Prop := sub.data <:+: s.data

instance (s sub : String) : Decidable (StrContains s sub) := by
  unfold StrContains; infer_instance

/-- Index of the first occurrence of sep inside s, if any; model of
strings.Index. -/
def findSub (s sep : List Char) : Option Nat :=
  (List.range (s.length + 1)).find? (fun i => sep.isPrefixOf (s.drop i))

/-- Fuel-driven worker for goSplit: cuts s at each occurrence of the
non-empty separator. The fuel (initially the length of s) bounds the number
of cuts; each cut removes at least one character, so the fuel never runs
out before the separator stops occurring. -/
def goSplitAux : Nat → List Char → List Char → List (List Char)
  | 0, s, _ => [s]
  | fuel + 1, s, sep =>
    match findSub s sep with
    | none => [s]
    | some i => s.take i :: goSplitAux fuel (s.drop (i + sep.length)) sep

/-- Model of strings.Split. An empty separator splits into the individual
characters (so an empty input gives an empty list); a non-empty separator
always yields at least one field. -/
def goSplit (s sep : String) : List String :=
  if sep.data = [] then s.data.map (fun c => ⟨[c]⟩)
  else (goSplitAux s.data.length s.data sep.data).map (fun l => ⟨l⟩)

/-- Model of strconv.ParseInt at base 10 with the given bit size: an
optional sign, then one or more decimal digits, with the final value
required to fit in a signed integer of that many bits. Any failure is
none (the Go original returns a non-nil error). -/
def parseGoInt (size : Nat) (s : String) : Option Int :=
  let signAndDigits : Bool × List Char :=
    match s.data with
    | '+' :: rest => (false, rest)
    | '-' :: rest => (true, rest)
    | rest => (false, rest)
  let ds := signAndDigits.2
  if ds = [] ∨ ¬ ds.all Char.isDigit then none
  else
    let n : Nat := ds.foldl (fun a c => a * 10 + (c.toNat - 48)) 0
    let v : Int := if signAndDigits.1 then -(n : Int) else (n : Int)
    if -(2 ^ (size - 1) : Int) ≤ v ∧ v ≤ 2 ^ (size - 1) - 1 then some v else none

/-- Model of strconv.ParseUint at base 10 with the given bit size: one or
more decimal digits with no sign prefix, fitting in the given width. -/
def parseGoUint (size : Nat) (s : String) : Option Nat :=
  if s.data = [] ∨ ¬ s.data.all Char.isDigit then none
  else
    let n : Nat := s.data.foldl (fun a c => a * 10 + (c.toNat - 48)) 0
    if n ≤ 2 ^ size - 1 then some n else none

/-- Model of strconv.ParseBool: the twelve accepted literals, anything else
an error. -/
def parseGoBool (s : String) : Option Bool :=
  if s = "1" ∨ s = "t" ∨ s = "T" ∨ s = "true" ∨ s = "TRUE" ∨ s = "True" then some true
  else if s = "0" ∨ s = "f" ∨ s = "F" ∨ s = "false" ∨ s = "FALSE" ∨ s = "False" then some false
  else none

/-- Splits a character list at every slash. Unlike goFields this keeps
empty segments, matching the component view that path cleaning uses. -/
def splitSep : List Char → List (List Char)
  | [] => [[]]
  | c :: rest =>
    if c = '/' then [] :: splitSep rest
    else
      match splitSep rest with
      | [] => [[c]]
      | g :: gs => (c :: g) :: gs

/-- Stack-based core of path cleaning, processing components left to right:
empty and dot components vanish, dot-dot pops a previous component when one
is available (or is kept when the path is relative, dropped when rooted),
anything else is pushed. The accumulator holds the output in reverse. -/
def cleanStack (rooted : Bool) : List (List Char) → List (List Char) → List (List Char)
  | acc, [] => acc.reverse
  | acc, comp :: rest =>
    if comp = [] ∨ comp = ['.'] then cleanStack rooted acc rest
    else if comp = ['.', '.'] then
      match acc with
      | [] => if rooted then cleanStack rooted [] rest else cleanStack rooted [['.', '.']] rest
      | top :: acc2 =>
        if top = ['.', '.'] then cleanStack rooted (comp :: acc) rest
        else cleanStack rooted acc2 rest
    else cleanStack rooted (comp :: acc) rest

/-- Rejoins path components with slashes. -/
def joinComps : List (List Char) → List Char
  | [] => []
  | [c] => c
  | c :: rest => c ++ '/' :: joinComps rest

/-- Model of the Go path/filepath Clean function on a Unix system, on
character lists: lexically removes repeated separators, dot components and
resolvable dot-dot components, yielding a dot for an empty result. -/
def goCleanL (p : List Char) : List Char :=
  if p = [] then ['.']
  else
    let rooted : Bool :=
      match p with
      | '/' :: _ => true
      | _ => false
    let comps := cleanStack rooted [] (splitSep p)
    if comps = [] then (if rooted then ['/'] else ['.'])
    else (if rooted then ['/'] else []) ++ joinComps comps

/-- Model of filepath.Clean on strings. -/
def goClean (p : String) : String := ⟨goCleanL p.data⟩

/-- Model of filepath.Join on two elements: empty elements are skipped and
the concatenation is cleaned; two empty elements give the empty string. -/
def goJoin (a b : String) : String :=
  if a.data = [] ∧ b.data = [] then ""
  else if a.data = [] then goClean b
  else if b.data = [] then goClean a
  else ⟨goCleanL (a.data ++ '/' :: b.data)⟩

/-- Lexical containment used to state the path-safety claim: the cleaned
destination directory components form a proper leading segment of the
component list of the candidate path. -/
def StrictlyInside (dir p : String) : Prop :=
  splitSep (goCleanL dir.data) <+: splitSep p.data ∧ splitSep (goCleanL dir.data) ≠ splitSep p.data

instance (dir p : String) : Decidable (StrictlyInside dir p) := by
  unfold StrictlyInside; infer_instance

/-- Model of the parsed request the requests package reads from: the merged
form and query value map (r.Form, multi-valued) and the route path value
map. -/
structure GoRequest where
  form : List (String × List String)
  path : List (String × String)
deriving DecidableEq

/-- Model of the r.Form lookup of every value bound to a name; absent names
give the empty list, as a nil slice does in Go. -/
def FormValues (r : GoRequest) (name : String) : List String :=
  (r.form.lookup name).getD []

/-- Model of r.FormValue: the first bound value, or the empty string when
none is bound. -/
def FormValue (r : GoRequest) (name : String) : String :=
  match FormValues r name with
  | [] => ""
  | v :: _ => v

/-- Model of r.PathValue: the route parameter, or the empty string. -/
def PathValue (r : GoRequest) (name : String) : String :=
  (r.path.lookup name).getD ""

/-- Embedding of the getInt helper of the requests package: parse the form
value; on any parse failure parse the path value; on failure of both,
zero. -/
def getInt (r : GoRequest) (name : String) (size : Nat) : Int :=
  match parseGoInt size (FormValue r name) with
  | some v => v
  | none =>
    match parseGoInt size (PathValue r name) with
    | some v => v
    | none => 0

/-- Embedding of the getUint helper, same shape as getInt. -/
def getUint (r : GoRequest) (name : String) (size : Nat) : Nat :=
  match parseGoUint size (FormValue r name) with
  | some v => v
  | none =>
    match parseGoUint size (PathValue r name) with
    | some v => v
    | none => 0

/-- Embedding of the getFloat helper, with the floating-point parser of
strconv.ParseFloat and the zero value left as parameters (IEEE floating
point is external to this development); the parse-then-path-fallback shape
is the one in the source, identical to getInt and getUint. -/
def getFloat {F : Type} (parseFloat : String → Option F) (zero : F)
    (r : GoRequest) (name : String) : F :=
  match parseFloat (FormValue r name) with
  | some v => v
  | none =>
    match parseFloat (PathValue r name) with
    | some v => v
    | none => zero

/-- Embedding of the bool case of GetFromRequest: the path value is
consulted only when the form value is the empty string, and a failed parse
of the chosen string gives false. -/
def GetFromRequestBool (r : GoRequest) (name : String) : Bool :=
  let temp0 := FormValue r name
  let temp := if temp0 = "" then PathValue r name else temp0
  (parseGoBool temp).getD false

/-- Embedding of the default (string) case of GetFromRequest: the form
value, or the path value when the form value is empty. -/
def GetFromRequestString (r : GoRequest) (name : String) : String :=
  let result := FormValue r name
  if result = "" then PathValue r name else result

/-- Embedding of the shared slice-extraction loop of getIntSlice,
getUintSlice and getFloatSlice: walk the bound values, appending each value
the element parser accepts and skipping the rest. -/
def sliceLoop {α : Type} (parse : String → Option α) (values : List String) : List α :=
  if values = [] then []
  else
    values.foldl
      (fun acc v =>
        match parse v with
        | some t => acc ++ [t]
        | none => acc)
      []

/-- Embedding of getIntSlice. -/
def getIntSlice (r : GoRequest) (name : String) (size : Nat) : List Int :=
  sliceLoop (parseGoInt size) (FormValues r name)

/-- Embedding of getUintSlice. -/
def getUintSlice (r : GoRequest) (name : String) (size : Nat) : List Nat :=
  sliceLoop (parseGoUint size) (FormValues r name)

/-- Embedding of getFloatSlice, with the floating-point element parser of
strconv.ParseFloat left as a parameter (IEEE floating point is external to
this development); the loop structure is the one in the source. -/
def getFloatSlice {F : Type} (parseFloat : String → Option F) (r : GoRequest) (name : String) :
    List F :=
  sliceLoop parseFloat (FormValues r name)

/-- Embedding of GetStringListFromRequest: split the single form value on
the caller-supplied separator. -/
def GetStringListFromRequest (r : GoRequest) (name seperator : String) : List String :=
  goSplit (FormValue r name) seperator

/-- Model of the header view of a request, for the bearer helper; the Get
of an absent key is the empty string. -/
structure HeaderRequest where
  headers : List (String × String)
deriving DecidableEq

/-- Model of r.Header.Get. -/
def headerGet (r : HeaderRequest) (key : String) : String :=
  (r.headers.lookup key).getD ""

/-- Embedding of GetAuthorizationBearer: whitespace-split the Authorization
header; exactly two fields whose first, lowered, is bearer succeed with the
second field, anything else is the malformed-header error. -/
def GetAuthorizationBearer (r : HeaderRequest) : Except String String :=
  let authHeader := headerGet r "Authorization"
  match goFields authHeader with
  | [scheme, token] =>
    if goToLower scheme = "bearer" then .ok token
    else .error "invalid bearer authorization header"
  | _ => .error "invalid bearer authorization header"

/-- Model of the request as ReadBody consumes it: the declared content type
header and the outcome of reading the whole body. -/
structure BodyRequest where
  contentType : String
  body : Except Unit String
deriving DecidableEq

/-- Errors of the ReadBody embedding, mirroring the three wrapped error
returns of the source. -/
inductive BodyErr where
  | readError
  | unmarshalError (message contents : String)
  | unsupportedContentType (contentType : String)
deriving DecidableEq

/-- Embedding of ReadBody, with the JSON and XML codecs of the Go standard
library as parameters: read the body, then dispatch on the exact declared
content type string. -/
def ReadBody {T : Type} (jsonUnmarshal xmlUnmarshal : String → Except String T)
    (r : BodyRequest) : Except BodyErr T :=
  match r.body with
  | .error _ => .error .readError
  | .ok b =>
    if r.contentType = "application/json" then
      match jsonUnmarshal b with
      | .ok v => .ok v
      | .error e => .error (.unmarshalError e b)
    else if r.contentType = "application/xml" then
      match xmlUnmarshal b with
      | .ok v => .ok v
      | .error e => .error (.unmarshalError e b)
    else .error (.unsupportedContentType r.contentType)

/-- Model of the response sink: headers set so far, the list of explicit
status writes performed on it, and the accumulated body bytes. -/
structure ResponseWriter where
  headers : List (String × String)
  statusWrites : List Int
  body : String
deriving DecidableEq

/-- A fresh sink with nothing written. -/
def emptyResponseWriter : ResponseWriter := ⟨[], [], ""⟩

/-- Model of Header().Set: replaces any previous value of the key. -/
def setHeader (w : ResponseWriter) (key value : String) : ResponseWriter :=
  { w with headers := (key, value) :: w.headers.filter (fun p => p.1 != key) }

/-- Model of WriteHeader: records one explicit status write. -/
def WriteHeader (w : ResponseWriter) (status : Int) : ResponseWriter :=
  { w with statusWrites := w.statusWrites ++ [status] }

/-- Model of writing bytes to the sink body. -/
def writeBody (w : ResponseWriter) (value : String) : ResponseWriter :=
  { w with body := w.body ++ value }

/-- Embedding of the unexported write helper of the responses package: set
the content type, explicitly write the status only when it exceeds 299,
then print the value. The value argument is the formatted text the Go
format verb would produce. -/
def write (w : ResponseWriter) (contentType : String) (status : Int) (value : String) :
    ResponseWriter :=
  let w1 := setHeader w "Content-Type" contentType
  let w2 := if 299 < status then WriteHeader w1 status else w1
  writeBody w2 value

/-- Embedding of Html. -/
def Html (w : ResponseWriter) (status : Int) (value : String) : ResponseWriter :=
  write w "text/html" status value

/-- Embedding of Text. -/
def Text (w : ResponseWriter) (status : Int) (value : String) : ResponseWriter :=
  write w "text/plain" status value

/-- Embedding of IsSuccessRange. -/
def IsSuccessRange (status : Int) : Bool :=
  200 ≤ status ∧ status < 300

/-- Model of a value handed to the JSON writer: either json.Marshal
succeeds on it, producing the recorded serialization, or it fails (as it
does on a channel). -/
inductive GoValue where
  | marshalable (json : String)
  | unmarshalable
deriving DecidableEq

/-- Model of json.Marshal on a GoValue. -/
def jsonMarshal : GoValue → Except Unit String
  | .marshalable s => .ok s
  | .unmarshalable => .error ()

/-- The exact serialization of the fixed message-and-suggestion envelope
the JSON writer falls back to when marshaling fails. -/
def marshalErrorBody : String :=
  "\x7b\"message\":\"Error marshaling value for writing\",\"suggestion\":\"See error log for more information\"\x7d"

/-- Embedding of Json: set the content type; on marshal failure write the
fixed envelope with an explicit 500, ignoring the requested status; on
success explicitly write the status only when it exceeds 299, then print
the serialization. The function returns only the sink: no error is
surfaced to the caller. -/
def Json (w : ResponseWriter) (status : Int) (value : GoValue) : ResponseWriter :=
  let w1 := setHeader w "Content-Type" "application/json"
  match jsonMarshal value with
  | .error _ =>
    let w2 := WriteHeader w1 500
    writeBody w2 marshalErrorBody
  | .ok b =>
    let w2 := if 299 < status then WriteHeader w1 status else w1
    writeBody w2 b

/-- Embedding of the UploadOptions configuration record. -/
structure UploadOptions where
  MaxFileSize : Int
  RandomStringSize : Nat
deriving DecidableEq

/-- An option is a mutator of the options record, as in the source. -/
def UploadOption : Type := UploadOptions → UploadOptions

/-- The defaults ReadUploadedFile starts from: ten mebibytes and ten
random characters. -/
def defaultUploadOptions : UploadOptions := ⟨10 * 2 ^ 20, 10⟩

/-- Folding the caller-supplied option mutators over the defaults. -/
def applyOptions (options : List UploadOption) : UploadOptions :=
  options.foldl (fun o f => f o) defaultUploadOptions

/-- Embedding of the WithMaxFileSize option constructor. -/
def WithMaxFileSize (size : Int) : UploadOption :=
  fun o => { o with MaxFileSize := size }

/-- Embedding of the WithRandomStringSize option constructor. -/
def WithRandomStringSize (size : Nat) : UploadOption :=
  fun o => { o with RandomStringSize := size }

/-- Metadata of the multipart file header: the client-declared name and
size. -/
structure MultipartFileInfo where
  Filename : String
  Size : Int
deriving DecidableEq

/-- Model of the incoming multipart request: whether ParseMultipartForm
succeeds, and the file fields by name. -/
structure UploadRequest where
  parseMultipartOk : Bool
  files : List (String × MultipartFileInfo)
deriving DecidableEq

/-- The error returns of the upload pipeline, one constructor per wrapped
error site of the source. -/
inductive UploadErr where
  | parseForm
  | retrieveFileInfo
  | sizeExceeded (actual limit : Int)
  | callbackFailure (message : String)
  | templateParse (message : String)
  | templateExec (message : String)
  | invalidDestPath (renderedName : String)
  | createFile (renderedName : String)
deriving DecidableEq

/-- The message text of each error, following the format strings of the
source (quotation of interpolated names elided). -/
def UploadErrMessage : UploadErr → String
  | .parseForm => "error parsing form data"
  | .retrieveFileInfo => "error retrieving file info from form"
  | .sizeExceeded actual limit =>
    "file size of " ++ toString actual ++ (" bytes exceeds the limit of " ++ (toString limit ++ " bytes"))
  | .callbackFailure m => m
  | .templateParse m => "error parsing destination file name template: " ++ m
  | .templateExec m => "error executing destination file name template: " ++ m
  | .invalidDestPath n => "invalid destination file path attempted: " ++ n
  | .createFile n => "error creating file: " ++ n

/-- Model of r.FormFile for a field name. -/
def FormFile (r : UploadRequest) (fieldName : String) : Option MultipartFileInfo :=
  r.files.lookup fieldName

/-- Embedding of ReadUploadedFile: merge options over defaults, parse the
multipart form, fetch the named file field, reject a declared size
strictly above the maximum, and otherwise hand the file to the callback.
The second component records whether the callback was invoked. -/
def ReadUploadedFile (fieldName : String) (r : UploadRequest)
    (callback : MultipartFileInfo → UploadOptions → Except UploadErr Unit)
    (options : List UploadOption) : Except UploadErr Unit × Bool :=
  let opts := applyOptions options
  if r.parseMultipartOk then
    match FormFile r fieldName with
    | none => (.error .retrieveFileInfo, false)
    | some info =>
      if opts.MaxFileSize < info.Size then
        (.error (.sizeExceeded info.Size opts.MaxFileSize), false)
      else (callback info opts, true)
  else (.error .parseForm, false)

/-- Minimal filesystem state for the upload destination: the directories
that exist and the files created so far. -/
structure GoFS where
  dirs : List String
  files : List String
deriving DecidableEq

/-- The directory portion of a path, for the create-file model: everything
before the last separator. -/
def dirOfPath (p : String) : String := ⟨joinComps (splitSep p.data).dropLast⟩

/-- Embedding of the body of the UploadFileToDir callback, from the point
the template variables are built: the outcomes of template parsing and of
strict rendering are inputs (the Go text/template engine is external), and
the join, the prefix guard, and file creation follow the source order.
Creation succeeds exactly when the parent directory exists, appending the
new file to the state; every failure leaves the filesystem unchanged. -/
def UploadFileToDirStep (parseResult : Except String Unit) (execResult : Except String String)
    (destDir : String) (fs : GoFS) : Except UploadErr String × GoFS :=
  match parseResult with
  | .error e => (.error (.templateParse e), fs)
  | .ok _ =>
    match execResult with
    | .error e => (.error (.templateExec e), fs)
    | .ok destFileName =>
      let finalPath := goJoin destDir destFileName
      if goStartsWith finalPath (goClean destDir) then
        if dirOfPath finalPath ∈ fs.dirs then
          (.ok finalPath, { fs with files := finalPath :: fs.files })
        else (.error (.createFile destFileName), fs)
      else (.error (.invalidDestPath destFileName), fs)

/-! Helper lemmas shared by the claim theorems. -/

theorem splitSep_ne_nil (l : List Char) : splitSep l ≠ [] := by
  cases l with
  | nil => simp [splitSep]
  | cons c rest =>
    simp only [splitSep]
    split
    · simp
    · cases h : splitSep rest <;> simp

theorem splitSep_append (a b : List Char) :
    splitSep (a ++ '/' :: b) = splitSep a ++ splitSep b := by
  induction a with
  | nil => simp [splitSep]
  | cons c rest ih =>
    by_cases hc : c = '/'
    · simp [List.cons_append, splitSep, hc, ih]
    · simp only [List.cons_append, splitSep, if_neg hc, List.append_eq]
      rw [ih]
      cases h : splitSep rest with
      | nil => exact absurd h (splitSep_ne_nil rest)
      | cons g gs => simp

theorem infixOfAppendLeft {α : Type} {l y : List α} (x : List α) (h : l <:+: y) :
    l <:+: x ++ y :=
  h.trans (List.suffix_append x y).isInfix

theorem infixOfAppendRight {α : Type} {l y : List α} (x : List α) (h : l <:+: y) :
    l <:+: y ++ x :=
  h.trans (List.prefix_append y x).isInfix

/-! Claim theorems. -/

/-- C1 counterexample: with destination directory dest and rendered name
../dest-evil/x (a value the client controls, since the template variable
fileName is the client-declared filename), the joined path dest-evil/x
passes the literal string-prefix guard, the pipeline creates the file and
reports it as the saved path, and yet that file is a sibling of the
destination directory, not inside it. -/
theorem c1_guard_counterexample :
    goStartsWith (goJoin "dest" "../dest-evil/x") (goClean "dest") = true ∧
    UploadFileToDirStep (.ok ()) (.ok "../dest-evil/x") "dest" ⟨["dest", "dest-evil"], []⟩ =
      (.ok "dest-evil/x", ⟨["dest", "dest-evil"], ["dest-evil/x"]⟩) ∧
    ¬ StrictlyInside "dest" (goJoin "dest" "../dest-evil/x") :=
  ⟨by decide, by decide, by decide⟩

/-- C1 (amended): the bare string-prefix guard of the source does not by
itself confine the joined path to the destination directory; the guard
strengthened by a trailing separator does: whenever the cleaned destination
directory followed by a slash is a literal prefix of the joined path, the
cleaned directory components are a proper leading segment of the joined
path components, so the path lies strictly inside the directory. -/
theorem c1_guard_with_separator_contains (destDir rendered : String)
    (h : goStartsWith (goJoin destDir rendered) (goClean destDir ++ "/") = true) :
    StrictlyInside destDir (goJoin destDir rendered) := by
  unfold goStartsWith at h
  have hp := List.isPrefixOf_iff_prefix.mp h
  have hdata : (goClean destDir ++ "/").data = goCleanL destDir.data ++ ['/'] := by
    rw [String.data_append]; rfl
  rw [hdata] at hp
  obtain ⟨t, ht⟩ := hp
  have hfp : (goJoin destDir rendered).data = goCleanL destDir.data ++ '/' :: t := by
    rw [← ht]; simp
  constructor
  · rw [hfp, splitSep_append]
    exact List.prefix_append ..
  · rw [hfp, splitSep_append]
    intro hEq
    have hlen := congrArg List.length hEq
    rw [List.length_append] at hlen
    have : (splitSep t).length = 0 := by omega
    exact splitSep_ne_nil t (List.length_eq_zero.mp this)

/-- Witness for the amended C1 theorem at a concrete benign rendered
name. -/
theorem c1_guard_with_separator_contains_witness :
    StrictlyInside "dest" (goJoin "dest" "sub/a.txt") :=
  c1_guard_with_separator_contains "dest" "sub/a.txt" (by decide)

/-- C2 counterexample: status 199 lies outside the 200 to 299 success
range, yet the shared writer performs no explicit status write for it,
refuting the claimed equivalence below 200. -/
theorem c2_status_199_counterexample :
    IsSuccessRange 199 = false ∧
    (write emptyResponseWriter "text/html" 199 "x").statusWrites = [] :=
  ⟨by decide, by decide⟩

/-- C2 (amended): on the text, HTML and JSON success paths an explicit
status write occurs exactly for statuses strictly above 299; every status
at or below 299, including those below 200 such as 199, relies on the sink
default. -/
theorem c2_status_write_iff (w : ResponseWriter) (ct : String) (status : Int) (v : String) :
    ((write w ct status v).statusWrites =
      w.statusWrites ++ if 299 < status then [status] else []) ∧
    (∀ b val, jsonMarshal val = .ok b →
      (Json w status val).statusWrites =
        w.statusWrites ++ if 299 < status then [status] else []) := by
  constructor
  · unfold write writeBody WriteHeader setHeader
    split <;> simp
  · intro b val hm
    cases val with
    | unmarshalable => simp [jsonMarshal] at hm
    | marshalable s =>
      simp only [Json, jsonMarshal, writeBody, WriteHeader, setHeader]
      split <;> simp


/-- Witness for the amended C2 theorem: at status 301 the JSON writer with
a marshalable value performs the explicit write. -/
theorem c2_status_write_iff_witness :
    (Json emptyResponseWriter 301 (.marshalable "1")).statusWrites =
      emptyResponseWriter.statusWrites ++ if (299 : Int) < 301 then [(301 : Int)] else [] :=
  (c2_status_write_iff emptyResponseWriter "application/json" 301 "1").2 "1"
    (.marshalable "1") rfl

/-- C3 counterexample: with form value abc (non-empty and unparsable as an
integer) and path value 42 under the same name, integer extraction returns
the parsed path value 42, not the zero value the claim requires. -/
theorem c3_path_fallback_counterexample :
    getInt ⟨[("x", ["abc"])], [("x", "42")]⟩ "x" 64 = 42 ∧ (42 : Int) ≠ 0 :=
  ⟨by decide, by decide⟩

/-- C3 (amended): for the string and bool scalars the path parameter is
consulted only when the form value is the empty string; for the numeric
scalars — the signed and unsigned integer families, and the float family
with its element parser and zero value taken parametrically — the fallback
to the path parameter happens whenever the form value fails its canonical
parse, empty or not, and the zero value arises only when both sources fail
to parse. -/
theorem c3_resolution_amended (r : GoRequest) (name : String) (size : Nat) :
    (∀ v, parseGoInt size (FormValue r name) = some v → getInt r name size = v) ∧
    (parseGoInt size (FormValue r name) = none →
      getInt r name size = (parseGoInt size (PathValue r name)).getD 0) ∧
    (∀ v, parseGoUint size (FormValue r name) = some v → getUint r name size = v) ∧
    (parseGoUint size (FormValue r name) = none →
      getUint r name size = (parseGoUint size (PathValue r name)).getD 0) ∧
    (∀ (F : Type) (parseFloat : String → Option F) (zero : F) (v : F),
      parseFloat (FormValue r name) = some v → getFloat parseFloat zero r name = v) ∧
    (∀ (F : Type) (parseFloat : String → Option F) (zero : F),
      parseFloat (FormValue r name) = none →
      getFloat parseFloat zero r name = (parseFloat (PathValue r name)).getD zero) ∧
    (FormValue r name ≠ "" →
      GetFromRequestBool r name = (parseGoBool (FormValue r name)).getD false) ∧
    (FormValue r name ≠ "" → GetFromRequestString r name = FormValue r name) ∧
    (FormValue r name = "" → GetFromRequestString r name = PathValue r name) := by
  refine ⟨?_, ?_, ?_, ?_, ?_, ?_, ?_, ?_, ?_⟩
  · intro v h
    simp [getInt, h]
  · intro h
    simp only [getInt, h]
    cases hp : parseGoInt size (PathValue r name) <;> simp
  · intro v h
    simp [getUint, h]
  · intro h
    simp only [getUint, h]
    cases hp : parseGoUint size (PathValue r name) <;> simp
  · intro F parseFloat zero v h
    simp [getFloat, h]
  · intro F parseFloat zero h
    simp only [getFloat, h]
    cases hp : parseFloat (PathValue r name) <;> simp
  · intro h
    simp [GetFromRequestBool, if_neg h]
  · intro h
    simp [GetFromRequestString, if_neg h]
  · intro h
    simp [GetFromRequestString, if_pos h]

/-- Witness for the amended C3 theorem: a parsable form value is returned
as parsed. -/
theorem c3_resolution_amended_witness :
    getInt ⟨[("n", ["7"])], []⟩ "n" 64 = 7 :=
  (c3_resolution_amended ⟨[("n", ["7"])], []⟩ "n" 64).1 7 (by decide)

/-- C4: when marshaling fails, the JSON writer performs the explicit 500
status write whatever status was requested, appends exactly the fixed
message-and-suggestion envelope, whose text contains the phrase Error
marshaling value, and surfaces nothing to the caller: the function returns
only the sink, as the source has no error return. -/
theorem c4_json_marshal_error (w : ResponseWriter) (status : Int) (value : GoValue)
    (h : jsonMarshal value = .error ()) :
    (Json w status value).statusWrites = w.statusWrites ++ [500] ∧
    (Json w status value).body = w.body ++ marshalErrorBody ∧
    StrContains marshalErrorBody "Error marshaling value" := by
  cases value with
  | marshalable s => simp [jsonMarshal] at h
  | unmarshalable => exact ⟨rfl, rfl, by decide⟩

/-- Witness for C4 at a concrete unmarshalable value and requested status
200. -/
theorem c4_json_marshal_error_witness :
    (Json emptyResponseWriter 200 .unmarshalable).statusWrites =
      emptyResponseWriter.statusWrites ++ [500] :=
  (c4_json_marshal_error emptyResponseWriter 200 .unmarshalable rfl).1

/-- C5: with the multipart parse succeeded and the named field found, a
declared size strictly above the configured maximum yields the
size-exceeded error carrying both the actual and the limit value, without
invoking the callback, and the rendered message places both numbers around
the phrase exceeds the limit; a declared size exactly equal to the maximum
passes the check and the callback is invoked, its outcome returned. -/
theorem c5_size_check (fieldName : String) (r : UploadRequest)
    (cb : MultipartFileInfo → UploadOptions → Except UploadErr Unit)
    (options : List UploadOption) (info : MultipartFileInfo)
    (hp : r.parseMultipartOk = true) (hf : FormFile r fieldName = some info) :
    ((applyOptions options).MaxFileSize < info.Size →
      ReadUploadedFile fieldName r cb options =
        (.error (.sizeExceeded info.Size (applyOptions options).MaxFileSize), false)) ∧
    (info.Size = (applyOptions options).MaxFileSize →
      ReadUploadedFile fieldName r cb options = (cb info (applyOptions options), true)) ∧
    (∀ actual limit : Int,
      UploadErrMessage (.sizeExceeded actual limit) =
        "file size of " ++ toString actual ++
          (" bytes exceeds the limit of " ++ (toString limit ++ " bytes")) ∧
      StrContains (UploadErrMessage (.sizeExceeded actual limit)) "exceeds the limit") := by
  refine ⟨?_, ?_, ?_⟩
  · intro hsz
    simp [ReadUploadedFile, hp, hf, if_pos hsz]
  · intro heq
    simp [ReadUploadedFile, hp, hf, heq]
  · intro actual limit
    refine ⟨rfl, ?_⟩
    show ("exceeds the limit" : String).data <:+: _
    have hmsg : (UploadErrMessage (.sizeExceeded actual limit)).data =
        ("file size of " : String).data ++ ((toString actual : String).data ++
          ((" bytes exceeds the limit of " : String).data ++
            ((toString limit : String).data ++ (" bytes" : String).data))) := by
      simp [UploadErrMessage, String.data_append]
    rw [hmsg]
    refine infixOfAppendLeft _ (infixOfAppendLeft _ (infixOfAppendRight _ ?_))
    decide

/-- Witness for C5: over-limit upload of 6 bytes against a 5-byte maximum
is rejected with both numbers and no callback invocation. -/
theorem c5_size_check_witness :
    ReadUploadedFile "f" ⟨true, [("f", ⟨"a.txt", 6⟩)]⟩
      (fun _ _ => .ok ()) [WithMaxFileSize 5] =
      (.error (.sizeExceeded 6 (applyOptions [WithMaxFileSize 5]).MaxFileSize), false) :=
  (c5_size_check "f" ⟨true, [("f", ⟨"a.txt", 6⟩)]⟩ (fun _ _ => .ok ())
    [WithMaxFileSize 5] ⟨"a.txt", 6⟩ rfl rfl).1 (by decide)

/-- C6: in the upload-to-directory pipeline a template parse or render
failure returns the corresponding wrapped error with the filesystem
unchanged, so no destination file is created; and when parsing and
rendering have succeeded and the guard passes but the parent directory of
the joined path does not exist, the pipeline returns the file-creation
error, again with the filesystem unchanged. Creation is therefore reached
only on the branch where rendering already succeeded. -/
theorem c6_step_order (destDir : String) (fs : GoFS) :
    (∀ e execResult, UploadFileToDirStep (.error e) execResult destDir fs =
      (.error (.templateParse e), fs)) ∧
    (∀ e, UploadFileToDirStep (.ok ()) (.error e) destDir fs =
      (.error (.templateExec e), fs)) ∧
    (∀ name, goStartsWith (goJoin destDir name) (goClean destDir) = true →
      dirOfPath (goJoin destDir name) ∉ fs.dirs →
      UploadFileToDirStep (.ok ()) (.ok name) destDir fs =
        (.error (.createFile name), fs)) := by
  refine ⟨fun e execResult => rfl, fun e => rfl, ?_⟩
  intro name hg hd
  simp [UploadFileToDirStep, hg, hd]

/-- Witness for C6: rendering succeeded with a benign name but the
destination directory is absent from the filesystem, so the creation error
is returned and nothing is created. -/
theorem c6_step_order_witness :
    UploadFileToDirStep (.ok ()) (.ok "a.txt") "dest" ⟨[], []⟩ =
      (.error (.createFile "a.txt"), ⟨[], []⟩) :=
  (c6_step_order "dest" ⟨[], []⟩).2.2 "a.txt" (by decide) (by decide)

/-- C7: body decoding dispatches on the exact declared content type
string: application/json runs the JSON codec, application/xml runs the XML
codec, and any other value, including the parameterized form with a
charset attribute, fails with the unsupported-content-type error naming
the received value. -/
theorem c7_readBody_dispatch {T : Type} (jsonUnmarshal xmlUnmarshal : String → Except String T)
    (b : String) :
    (ReadBody jsonUnmarshal xmlUnmarshal ⟨"application/json", .ok b⟩ =
      match jsonUnmarshal b with
      | .ok v => .ok v
      | .error e => .error (.unmarshalError e b)) ∧
    (ReadBody jsonUnmarshal xmlUnmarshal ⟨"application/xml", .ok b⟩ =
      match xmlUnmarshal b with
      | .ok v => .ok v
      | .error e => .error (.unmarshalError e b)) ∧
    (∀ ct, ct ≠ "application/json" → ct ≠ "application/xml" →
      ReadBody jsonUnmarshal xmlUnmarshal ⟨ct, .ok b⟩ =
        .error (.unsupportedContentType ct)) ∧
    (ReadBody jsonUnmarshal xmlUnmarshal ⟨"application/json; charset=utf-8", .ok b⟩ =
      .error (.unsupportedContentType "application/json; charset=utf-8")) := by
  refine ⟨?_, ?_, ?_, ?_⟩
  · simp [ReadBody]
  · simp [ReadBody]
  · intro ct h1 h2
    simp [ReadBody, if_neg h1, if_neg h2]
  · simp [ReadBody]

/-- Witness for C7 at the concrete unsupported content type of the test
suite. -/
theorem c7_readBody_dispatch_witness :
    ReadBody (fun _ => .ok true) (fun _ => .ok true) ⟨"text/plain", .ok "text content"⟩ =
      .error (.unsupportedContentType "text/plain") :=
  (c7_readBody_dispatch (fun _ => .ok true) (fun _ => .ok true) "text content").2.2.1
    "text/plain" (by decide) (by decide)

/-- C8: the bearer helper succeeds exactly when whitespace-splitting the
Authorization header yields two fields whose first, lowered, is bearer, in
which case the second field is returned; in every other shape it returns
the malformed-header error. -/
theorem c8_bearer_spec (r : HeaderRequest) :
    ((∃ t, GetAuthorizationBearer r = .ok t) ↔
      ∃ s t, goFields (headerGet r "Authorization") = [s, t] ∧ goToLower s = "bearer") ∧
    (∀ s t, goFields (headerGet r "Authorization") = [s, t] → goToLower s = "bearer" →
      GetAuthorizationBearer r = .ok t) ∧
    ((¬ ∃ s t, goFields (headerGet r "Authorization") = [s, t] ∧ goToLower s = "bearer") →
      GetAuthorizationBearer r = .error "invalid bearer authorization header") := by
  have hfun : GetAuthorizationBearer r =
      match goFields (headerGet r "Authorization") with
      | [scheme, token] =>
        if goToLower scheme = "bearer" then .ok token
        else .error "invalid bearer authorization header"
      | _ => .error "invalid bearer authorization header" := rfl
  refine ⟨⟨?_, ?_⟩, ?_, ?_⟩
  · rintro ⟨t, ht⟩
    rw [hfun] at ht
    rcases hl : goFields (headerGet r "Authorization") with _ | ⟨s1, _ | ⟨s2, _ | ⟨s3, rest⟩⟩⟩ <;>
      rw [hl] at ht <;> simp at ht
    by_cases hb : goToLower s1 = "bearer"
    · refine ⟨s1, t, ?_, hb⟩
      rw [if_pos hb] at ht
      simp at ht
      rw [ht]
    · rw [if_neg hb] at ht
      simp at ht
  · rintro ⟨s, t, hl, hb⟩
    exact ⟨t, by rw [hfun, hl]; simp [hb]⟩
  · intro s t hl hb
    rw [hfun, hl]
    simp [hb]
  · intro hno
    rw [hfun]
    rcases hl : goFields (headerGet r "Authorization") with _ | ⟨s1, _ | ⟨s2, _ | ⟨s3, rest⟩⟩⟩
    · rfl
    · rfl
    · by_cases hb : goToLower s1 = "bearer"
      · exact absurd ⟨s1, s2, hl, hb⟩ hno
      · simp [hb]
    · rfl

/-- Witness for C8 at the canonical valid header of the test suite. -/
theorem c8_bearer_spec_witness :
    GetAuthorizationBearer ⟨[("Authorization", "Bearer my-secret-token")]⟩ =
      .ok "my-secret-token" :=
  (c8_bearer_spec ⟨[("Authorization", "Bearer my-secret-token")]⟩).2.1
    "Bearer" "my-secret-token" (by decide) (by decide)

/-- The append-accumulator loop shared by the numeric slice extractors
equals filterMap of the element parser. -/
theorem sliceLoopFold {α : Type} (parse : String → Option α) (values : List String)
    (acc : List α) :
    values.foldl
      (fun acc v =>
        match parse v with
        | some t => acc ++ [t]
        | none => acc)
      acc = acc ++ values.filterMap parse := by
  induction values generalizing acc with
  | nil => simp
  | cons v vs ih =>
    simp only [List.foldl_cons, List.filterMap_cons]
    cases h : parse v <;> simp [h, ih]

/-- C9: each numeric slice extractor returns exactly the entries its
element parser accepts, in their original order (it is filterMap of the
canonical parser over the bound values); the same holds for the
float extractor with any element parser; and a list in which every entry is
unparseable yields the empty sequence. -/
theorem c9_slices_are_filterMap (r : GoRequest) (name : String) (size : Nat) :
    getIntSlice r name size = (FormValues r name).filterMap (parseGoInt size) ∧
    getUintSlice r name size = (FormValues r name).filterMap (parseGoUint size) ∧
    (∀ (F : Type) (parseFloat : String → Option F),
      getFloatSlice parseFloat r name = (FormValues r name).filterMap parseFloat) ∧
    ((∀ v ∈ FormValues r name, parseGoInt size v = none) → getIntSlice r name size = []) := by
  have hloop : ∀ (α : Type) (parse : String → Option α) (values : List String),
      sliceLoop parse values = values.filterMap parse := by
    intro α parse values
    unfold sliceLoop
    split
    · simp_all
    · exact (sliceLoopFold parse values []).trans (by simp)
  refine ⟨hloop _ _ _, hloop _ _ _, fun F pf => hloop _ _ _, ?_⟩
  intro hall
  rw [getIntSlice, hloop]
  exact List.filterMap_eq_nil_iff.mpr hall

/-- Witness for C9: an all-unparseable list yields the empty sequence. -/
theorem c9_slices_are_filterMap_witness :
    getIntSlice ⟨[("xs", ["a", "b"])], []⟩ "xs" 64 = [] :=
  (c9_slices_are_filterMap ⟨[("xs", ["a", "b"])], []⟩ "xs" 64).2.2.2 (by decide)

/-- C10 counterexample: with the parameter absent (form lookup empty) and
the empty separator, the delimited-list helper returns the empty sequence,
not a one-element sequence holding the empty string. -/
theorem c10_empty_sep_counterexample :
    FormValue ⟨[], []⟩ "input" = "" ∧
    GetStringListFromRequest ⟨[], []⟩ "input" "" = [] :=
  ⟨by decide, by decide⟩

/-- C10 (amended): for every non-empty separator, an absent parameter
(form lookup yielding the empty string) makes the delimited-list helper
return the one-element sequence holding the empty string, so in that case
the result is never empty and absence is indistinguishable from a present
empty value; the empty separator instead yields the empty sequence. -/
theorem c10_absent_gives_singleton (r : GoRequest) (name sep : String)
    (habs : FormValue r name = "") (hsep : sep ≠ "") :
    GetStringListFromRequest r name sep = [""] := by
  unfold GetStringListFromRequest
  rw [habs]
  unfold goSplit
  have hd : sep.data ≠ [] := fun h => hsep (String.ext (h.trans rfl))
  rw [if_neg hd]
  simp [goSplitAux]

/-- Witness for the amended C10 theorem at the comma separator. -/
theorem c10_absent_gives_singleton_witness :
    GetStringListFromRequest ⟨[], []⟩ "input" "," = [""] :=
  c10_absent_gives_singleton ⟨[], []⟩ "input" "," (by decide) (by decide)

end HttpHelpers
